import Mathlib

/-!
Shallow embedding (in Lean 4) of the core of `Extractor.py`, an audio batch
extractor: the codec→extension table (`pick_copy_extension`), the ffmpeg
command builder (`build_ffmpeg_cmd`), the output-path resolver
(`make_out_path`, on top of a model of `pathlib` stems and suffixes), the
per-file worker (`process_one`), and the batch dispatcher (`_run_batch`,
modelled as `task` / `dispatcher_loop` / `final_summary`).

External effects (ffprobe/ffmpeg child processes, `mkdir`) are modelled by
oracle parameters: a call that can raise is an `Except String` value, the
detected codec is an `Option String`, and the cancellation `threading.Event`
is a set-once boolean timeline.  Python `int` is `Int`; Python truthiness of
optional ints (`if bitrate_k:`) is modelled explicitly (`none` and `some 0`
are both falsy).
-/

/-- A worker outcome, mirroring the Python tuple `(src, success, message)`
returned by `process_one` and by the cancellation short-circuit in `task`. -/
structure TaskResult where
  src : String
  success : Bool
  msg : String
deriving DecidableEq

/-- The fixed codec→extension dict literal of `pick_copy_extension`
(`Extractor.py` lines 81–92), in source order. -/
def copy_ext_mapping : List (String × String) :=
  [("aac", ".m4a"), ("mp3", ".mp3"), ("ac3", ".ac3"), ("eac3", ".eac3"),
   ("dts", ".dts"), ("opus", ".opus"), ("vorbis", ".ogg"), ("flac", ".flac"),
   ("pcm_s16le", ".wav"), ("truehd", ".thd")]

/-- `pick_copy_extension(codec)` = `mapping.get(codec, ".m4a")`
(`Extractor.py` line 93). -/
def pick_copy_extension (codec : String) : String :=
  (copy_ext_mapping.lookup codec).getD ".m4a"

/-- Python truthiness of an optional int: `None` and `0` are falsy.  Used for
the `if bitrate_k:` / `if sample_rate:` tests in `build_ffmpeg_cmd`. -/
def optTruthy : Option Int → Bool
  | none => false
  | some v => decide (v ≠ 0)

/-- Value of an optional int where the source only reads it under a truthy
test (`f"{bitrate_k}k"`, `str(sample_rate)`). -/
def optVal (o : Option Int) : Int := o.getD 0

/-- The EBU R128 loudness filter literal appended when `loudnorm` is true
(`Extractor.py` line 112). -/
def lnFilter : String := "loudnorm=I=-16:TP=-1.5:LRA=11"

/-- `build_ffmpeg_cmd` (`Extractor.py` lines 95–139), translated
statement-for-statement: the accumulating `base` list, the `af` filter list,
the mode chain (`COPY`/`MP3`/`AAC`/`WAV`, silently nothing otherwise), the
trailing `-af` join and output path. -/
def build_ffmpeg_cmd (src dst mode stream_selector : String) (loudnorm : Bool)
    (sample_rate bitrate_k : Option Int) (use_gpu : Bool) : List String :=
  let base := ["ffmpeg", "-y"]
  let base := if use_gpu then base ++ ["-hwaccel", "cuda"] else base
  let base := base ++ ["-i", src, "-vn", "-sn", "-dn", "-map", "0:" ++ stream_selector]
  let af : List String := if loudnorm then [lnFilter] else []
  let base :=
    if mode = "COPY" then base ++ ["-c:a", "copy"]
    else if mode = "MP3" then
      let b := base ++ ["-c:a", "libmp3lame"]
      let b := if optTruthy bitrate_k then b ++ ["-b:a", toString (optVal bitrate_k) ++ "k"] else b
      if optTruthy sample_rate then b ++ ["-ar", toString (optVal sample_rate)] else b
    else if mode = "AAC" then
      let b := base ++ ["-c:a", "aac"]
      let b := if optTruthy bitrate_k then b ++ ["-b:a", toString (optVal bitrate_k) ++ "k"]
               else b ++ ["-q:a", "2"]
      if optTruthy sample_rate then b ++ ["-ar", toString (optVal sample_rate)] else b
    else if mode = "WAV" then
      let b := base ++ ["-c:a", "pcm_s16le", "-ac", "2"]
      if optTruthy sample_rate then b ++ ["-ar", toString (optVal sample_rate)] else b
    else base
  let base := if af ≠ [] then base ++ ["-af", String.intercalate "," af] else base
  base ++ [dst]

/-- The `-hwaccel cuda` prefix contributed by `use_gpu` (factored view). -/
def gpu_args (use_gpu : Bool) : List String :=
  if use_gpu then ["-hwaccel", "cuda"] else []

/-- The `-b:a {bitrate}k` arguments under Python truthiness (factored view). -/
def br_args (bitrate_k : Option Int) : List String :=
  if optTruthy bitrate_k then ["-b:a", toString (optVal bitrate_k) ++ "k"] else []

/-- The `-ar {sample_rate}` arguments under Python truthiness (factored view). -/
def ar_args (sample_rate : Option Int) : List String :=
  if optTruthy sample_rate then ["-ar", toString (optVal sample_rate)] else []

/-- The mode-dependent codec arguments of `build_ffmpeg_cmd` (factored view). -/
def codec_args (mode : String) (sample_rate bitrate_k : Option Int) : List String :=
  if mode = "COPY" then ["-c:a", "copy"]
  else if mode = "MP3" then ["-c:a", "libmp3lame"] ++ br_args bitrate_k ++ ar_args sample_rate
  else if mode = "AAC" then
    ["-c:a", "aac"] ++ (if optTruthy bitrate_k then ["-b:a", toString (optVal bitrate_k) ++ "k"]
                        else ["-q:a", "2"]) ++ ar_args sample_rate
  else if mode = "WAV" then ["-c:a", "pcm_s16le", "-ac", "2"] ++ ar_args sample_rate
  else []

/-- The trailing `-af` filter arguments (factored view): present iff `loudnorm`. -/
def af_args (loudnorm : Bool) : List String :=
  if loudnorm then ["-af", lnFilter] else []

/-- The command builder factors into fixed segments: prelude, gpu flag, input
and stream-mapping block, codec arguments, filter arguments, output path. -/
theorem build_ffmpeg_cmd_eq (src dst mode stream_selector : String) (loudnorm : Bool)
    (sample_rate bitrate_k : Option Int) (use_gpu : Bool) :
    build_ffmpeg_cmd src dst mode stream_selector loudnorm sample_rate bitrate_k use_gpu =
      ["ffmpeg", "-y"] ++ gpu_args use_gpu
        ++ ["-i", src, "-vn", "-sn", "-dn", "-map", "0:" ++ stream_selector]
        ++ codec_args mode sample_rate bitrate_k ++ af_args loudnorm ++ [dst] := by
  have hint : String.intercalate "," [lnFilter] = lnFilter := rfl
  unfold build_ffmpeg_cmd gpu_args codec_args af_args br_args ar_args
  cases use_gpu <;> cases loudnorm <;>
    by_cases h1 : mode = "COPY" <;>
    by_cases h2 : mode = "MP3" <;>
    by_cases h3 : mode = "AAC" <;>
    by_cases h4 : mode = "WAV" <;>
    cases hb : optTruthy bitrate_k <;>
    cases hs : optTruthy sample_rate <;>
    simp_all [hint, lnFilter]

/-- Index of the last `.` in a character list (Python `name.rfind('.')`,
as an `Option`). -/
def lastDotIdx : List Char → Option Nat
  | [] => none
  | c :: rest =>
    match lastDotIdx rest with
    | some i => some (i + 1)
    | none => if c = '.' then some 0 else none

/-- `pathlib` name stem: chars before the last `.` when that dot sits at an
index `i` with `0 < i < len - 1`, otherwise the whole name
(CPython `PurePath.stem`). -/
def stemChars (s : List Char) : List Char :=
  match lastDotIdx s with
  | some i => if 0 < i ∧ i + 1 < s.length then s.take i else s
  | none => s

/-- `pathlib` name suffix: chars from the last `.` under the same index
condition, otherwise empty (CPython `PurePath.suffix`). -/
def suffixChars (s : List Char) : List Char :=
  match lastDotIdx s with
  | some i => if 0 < i ∧ i + 1 < s.length then s.drop i else []
  | none => []

/-- `Path(name).stem` on strings. -/
def pyStem (s : String) : String := String.mk (stemChars s.data)

/-- `Path(name).suffix` on strings. -/
def pySuffix (s : String) : String := String.mk (suffixChars s.data)

/-- `with_suffix` applied to the final name component: drop the current
suffix (if any) and append the new one (CPython `PurePath.with_suffix`). -/
def withSuffixName (name ext : String) : String :=
  if pySuffix name = "" then name ++ ext else pyStem name ++ ext

/-- A `pathlib.Path` is modelled by its list of components (`Path.parts`,
without anchor); `/` is list append. -/
def with_suffix_path (parts : List String) (ext : String) : List String :=
  parts.dropLast ++ [withSuffixName (parts.getLast?.getD "") ext]

/-- The extension chosen by `make_out_path` (`Extractor.py` lines 158–166):
COPY consults the detected codec — `codec or "aac"` treats both `None` and
the empty string as absent — the other modes are fixed. -/
def out_ext (mode : String) (codec : Option String) : String :=
  if mode = "COPY" then
    pick_copy_extension (match codec with
      | none => "aac"
      | some c => if c = "" then "aac" else c)
  else if mode = "MP3" then ".mp3"
  else if mode = "AAC" then ".m4a"
  else ".wav"

/-- `make_out_path` (`Extractor.py` lines 148–170) on component lists.
`src.relative_to(input_root)` is modelled as dropping the root's components
(the source raises unless the root is a prefix of `src`; theorems carry that
as a hypothesis), `detect_audio_codec` as the oracle `codec`, and the
`mkdir` side effect is not part of the returned value. -/
def make_out_path (src input_root output_root : List String)
    (preserve_tree : Bool) (mode : String) (codec : Option String) : List String :=
  let stem : List String :=
    if preserve_tree then with_suffix_path (src.drop input_root.length) ""
    else [pyStem (src.getLast?.getD "")]
  with_suffix_path (output_root ++ stem) (out_ext mode codec)

/-- `process_one` (`Extractor.py` lines 172–186).  The three fallible steps
inside its `try` — `make_out_path` (filesystem), `build_ffmpeg_cmd`
(in-Python), `run_cmd` (subprocess) — are oracles returning
`Except String`; a raised exception is `Except.error` carrying `str(e)`.
The single `except Exception` clause is distributed over the three steps:
an error at any of them yields `(src, False, str(e))` at once, exactly as
the exception would unwind to the handler. -/
def process_one (src : String)
    (resolve_out : Except String String)
    (build_cmd : String → Except String (List String))
    (run_tool : List String → Except String (Int × String × String)) : TaskResult :=
  match resolve_out with
  | Except.error e => TaskResult.mk src false e
  | Except.ok dst =>
    match build_cmd dst with
    | Except.error e => TaskResult.mk src false e
    | Except.ok cmd =>
      match run_tool cmd with
      | Except.error e => TaskResult.mk src false e
      | Except.ok r =>
        if r.1 ≠ 0 then TaskResult.mk src false r.2.2.trim
        else TaskResult.mk src true dst

/-- The closure `task` in `App._run_batch` (`Extractor.py` lines 464–478):
check the shared stop event first; if set, report failure with the literal
message `"Dibatalkan."` without calling `process_one`.  `cancel_set` is the
flag as observed when the task starts; `proc` is the `process_one` outcome
it would otherwise return. -/
def task (cancel_set : Bool) (f : String) (proc : TaskResult) : TaskResult :=
  if cancel_set then TaskResult.mk f false "Dibatalkan." else proc

/-- Number of external tool invocations the task performs: zero on the
cancellation short-circuit, otherwise whatever `process_one` performs. -/
def task_invocations (cancel_set : Bool) (proc_invocations : Nat) : Nat :=
  if cancel_set then 0 else proc_invocations

/-- The dispatcher counters of `App._run_batch`: `done`, `ok_count`,
`fail_count` (`Extractor.py` lines 459–461). -/
structure RunState where
  done : Nat
  ok_count : Nat
  fail_count : Nat
deriving DecidableEq

/-- One iteration body of the result loop (`Extractor.py` lines 487–493):
`done += 1` and exactly one of `ok_count`/`fail_count` incremented. -/
def step_counters (st : RunState) (r : TaskResult) : RunState :=
  { done := st.done + 1,
    ok_count := st.ok_count + (if r.success then 1 else 0),
    fail_count := st.fail_count + (if r.success then 0 else 1) }

/-- The `for fut in as_completed(futures)` loop (`Extractor.py` lines
483–495): `completed` is the task results in completion order, each paired
with the stop flag as observed at the top of that iteration; a set flag
breaks out of the loop.  Returns the final counters and the list of results
the loop actually processed (each is logged as one result line). -/
def dispatcher_loop : List (Bool × TaskResult) → RunState → RunState × List TaskResult
  | [], st => (st, [])
  | (stop_set, r) :: rest, st =>
    if stop_set then (st, [])
    else
      let out := dispatcher_loop rest (step_counters st r)
      (out.1, r :: out.2)

/-- A whole batch's result loop, starting from zeroed counters. -/
def run_batch (completed : List (Bool × TaskResult)) : RunState × List TaskResult :=
  dispatcher_loop completed (RunState.mk 0 0 0)

/-- The task results produced for a batch when the stop flag stays unset:
the i-th file paired with the i-th `process_one` outcome `(success, msg)`. -/
def submitted_results (files : List String) (outcomes : List (Bool × String)) :
    List TaskResult :=
  (files.zip outcomes).map fun p => task false p.1 (TaskResult.mk p.1 p.2.1 p.2.2)

/-- The final summary of `App._run_batch` (`Extractor.py` lines 504–509):
counts plus whether the stop event was set when the `finally` block ran. -/
structure Summary where
  ok_count : Nat
  fail_count : Nat
  cancelled : Bool
deriving DecidableEq

/-- Build the final status from the flag observed at batch end. -/
def final_summary (stop_set_at_end : Bool) (st : RunState) : Summary :=
  Summary.mk st.ok_count st.fail_count stop_set_at_end

/-- A `threading.Event` within one batch: cleared at batch start
(`stop_event.clear()`), set at most once (`cancel`), never cleared again
until the next batch.  `event_is_set set_at t` is `is_set()` at time `t`
when the (single) `set()` happened at time `set_at`. -/
def event_is_set (set_at : Option Nat) (t : Nat) : Bool :=
  match set_at with
  | none => false
  | some s => decide (s ≤ t)

/-- Every element of the mode-dependent codec arguments is one of the fixed
flag literals, the formatted bitrate, or the formatted sample rate. -/
theorem mem_codec_args (x mode : String) (sr br : Option Int)
    (hx : x ∈ codec_args mode sr br) :
    x ∈ ["-c:a", "copy", "libmp3lame", "aac", "pcm_s16le", "-ac", "2", "-q:a", "-b:a", "-ar"]
      ∨ (∃ v, br = some v ∧ x = toString v ++ "k")
      ∨ (∃ v, sr = some v ∧ x = toString v) := by
  unfold codec_args br_args ar_args optTruthy optVal at hx
  by_cases h1 : mode = "COPY" <;> by_cases h2 : mode = "MP3" <;>
    by_cases h3 : mode = "AAC" <;> by_cases h4 : mode = "WAV" <;>
    cases br <;> cases sr <;> simp_all <;> (try split_ifs at *) <;> (try simp_all) <;> tauto

/-- C4: for every mode, stream selector, sample rate, bitrate and GPU flag
(and any source/destination strings other than the filter text itself), the
built argument list contains the fixed EBU R128 filter
`loudnorm=I=-16:TP=-1.5:LRA=11` if and only if the loudness flag is true. -/
theorem claim_C4_loudnorm_filter_iff (src dst mode stream_selector : String)
    (loudnorm : Bool) (sample_rate bitrate_k : Option Int) (use_gpu : Bool)
    (hsrc : src ≠ lnFilter) (hdst : dst ≠ lnFilter)
    (hsel : "0:" ++ stream_selector ≠ lnFilter)
    (hsr : ∀ v, sample_rate = some v → toString v ≠ lnFilter)
    (hbr : ∀ v, bitrate_k = some v → toString v ++ "k" ≠ lnFilter) :
    lnFilter ∈ build_ffmpeg_cmd src dst mode stream_selector loudnorm
        sample_rate bitrate_k use_gpu
      ↔ loudnorm = true := by
  rw [build_ffmpeg_cmd_eq]
  constructor
  · intro h
    cases loudnorm with
    | true => rfl
    | false =>
      exfalso
      simp only [lnFilter] at hsrc hdst hsel hsr hbr h
      cases use_gpu <;>
        simp [af_args, gpu_args, Ne.symm hsrc, Ne.symm hdst, Ne.symm hsel] at h <;>
        rcases mem_codec_args _ _ _ _ h with hfix | ⟨v, hv, he⟩ | ⟨v, hv, he⟩ <;>
        first
          | exact absurd hfix (by decide)
          | exact hbr v hv he.symm
          | exact hsr v hv he.symm
  · intro h
    subst h
    simp [af_args]

/-- Witness for C4 at a concrete job configuration. -/
theorem claim_C4_loudnorm_filter_iff_witness :
    lnFilter ∈ build_ffmpeg_cmd "in.mp4" "out.mp3" "MP3" "a:0" true
        (some 44100) (some 320) false
      ↔ true = true :=
  claim_C4_loudnorm_filter_iff "in.mp4" "out.mp3" "MP3" "a:0" true
    (some 44100) (some 320) false
    (by decide) (by decide) (by decide)
    (fun v hv => by injection hv with h; subst h; decide)
    (fun v hv => by injection hv with h; subst h; decide)

/-- C5: for every mode and input, the built argument list carries the
stream-suppression flags `-vn`, `-sn`, `-dn`, and contains exactly one
`-map` argument, immediately followed by `0:` plus the given audio stream
selector (index or language form); no other mapping flag appears. -/
theorem claim_C5_single_audio_map (src dst mode stream_selector : String)
    (loudnorm : Bool) (sample_rate bitrate_k : Option Int) (use_gpu : Bool)
    (hsrc : src ≠ "-map") (hdst : dst ≠ "-map")
    (hsr : ∀ v, sample_rate = some v → toString v ≠ "-map")
    (hbr : ∀ v, bitrate_k = some v → toString v ++ "k" ≠ "-map") :
    "-vn" ∈ build_ffmpeg_cmd src dst mode stream_selector loudnorm
        sample_rate bitrate_k use_gpu
    ∧ "-sn" ∈ build_ffmpeg_cmd src dst mode stream_selector loudnorm
        sample_rate bitrate_k use_gpu
    ∧ "-dn" ∈ build_ffmpeg_cmd src dst mode stream_selector loudnorm
        sample_rate bitrate_k use_gpu
    ∧ ∃ l1 l2,
        build_ffmpeg_cmd src dst mode stream_selector loudnorm
            sample_rate bitrate_k use_gpu
          = l1 ++ ["-map", "0:" ++ stream_selector] ++ l2
        ∧ "-map" ∉ l1 ∧ "-map" ∉ l2 := by
  rw [build_ffmpeg_cmd_eq]
  refine ⟨by simp, by simp, by simp, ?_⟩
  refine ⟨["ffmpeg", "-y"] ++ gpu_args use_gpu ++ ["-i", src, "-vn", "-sn", "-dn"],
          codec_args mode sample_rate bitrate_k ++ af_args loudnorm ++ [dst],
          by simp, ?_, ?_⟩
  · cases use_gpu <;> simp [gpu_args, Ne.symm hsrc]
  · intro hm
    rcases List.mem_append.mp hm with hm | hm
    · rcases List.mem_append.mp hm with hm | hm
      · rcases mem_codec_args _ _ _ _ hm with hfix | ⟨v, hv, he⟩ | ⟨v, hv, he⟩
        · exact absurd hfix (by decide)
        · exact hbr v hv he.symm
        · exact hsr v hv he.symm
      · cases loudnorm <;> simp [af_args, lnFilter] at hm
    · simp at hm
      exact hdst hm.symm

/-- Witness for C5 at a concrete job configuration. -/
theorem claim_C5_single_audio_map_witness :
    "-vn" ∈ build_ffmpeg_cmd "in.mkv" "out.m4a" "AAC" "m:language:eng" false
        (some 48000) none true
    ∧ "-sn" ∈ build_ffmpeg_cmd "in.mkv" "out.m4a" "AAC" "m:language:eng" false
        (some 48000) none true
    ∧ "-dn" ∈ build_ffmpeg_cmd "in.mkv" "out.m4a" "AAC" "m:language:eng" false
        (some 48000) none true
    ∧ ∃ l1 l2,
        build_ffmpeg_cmd "in.mkv" "out.m4a" "AAC" "m:language:eng" false
            (some 48000) none true
          = l1 ++ ["-map", "0:" ++ "m:language:eng"] ++ l2
        ∧ "-map" ∉ l1 ∧ "-map" ∉ l2 :=
  claim_C5_single_audio_map "in.mkv" "out.m4a" "AAC" "m:language:eng" false
    (some 48000) none true
    (by decide) (by decide)
    (fun v hv => by injection hv with h; subst h; decide)
    (fun v hv => Option.noConfusion hv)

/-- C6: in mode WAV the built argument list always carries, adjacent and in
this order, `-c:a pcm_s16le -ac 2` — 16-bit signed PCM and exactly two
output channels — whatever the other options are. -/
theorem claim_C6_wav_pcm_stereo (src dst stream_selector : String)
    (loudnorm : Bool) (sample_rate bitrate_k : Option Int) (use_gpu : Bool) :
    ∃ l1 l2,
      build_ffmpeg_cmd src dst "WAV" stream_selector loudnorm
          sample_rate bitrate_k use_gpu
        = l1 ++ ["-c:a", "pcm_s16le", "-ac", "2"] ++ l2 := by
  rw [build_ffmpeg_cmd_eq]
  refine ⟨["ffmpeg", "-y"] ++ gpu_args use_gpu
            ++ ["-i", src, "-vn", "-sn", "-dn", "-map", "0:" ++ stream_selector],
          ar_args sample_rate ++ af_args loudnorm ++ [dst], ?_⟩
  simp [codec_args]

/-- C7: the codec→extension table is total — each of the ten listed codecs
maps to its listed extension, every codec outside the table maps to the
default `.m4a`, and the absent-codec case of COPY mode also yields `.m4a`. -/
theorem claim_C7_codec_extension_total :
    (pick_copy_extension "aac" = ".m4a" ∧ pick_copy_extension "mp3" = ".mp3"
      ∧ pick_copy_extension "ac3" = ".ac3" ∧ pick_copy_extension "eac3" = ".eac3"
      ∧ pick_copy_extension "dts" = ".dts" ∧ pick_copy_extension "opus" = ".opus"
      ∧ pick_copy_extension "vorbis" = ".ogg" ∧ pick_copy_extension "flac" = ".flac"
      ∧ pick_copy_extension "pcm_s16le" = ".wav" ∧ pick_copy_extension "truehd" = ".thd")
    ∧ (∀ c, c ∉ ["aac", "mp3", "ac3", "eac3", "dts", "opus", "vorbis", "flac",
                 "pcm_s16le", "truehd"] → pick_copy_extension c = ".m4a")
    ∧ out_ext "COPY" none = ".m4a" := by
  refine ⟨by decide, ?_, by decide⟩
  intro c hc
  simp only [List.mem_cons, List.not_mem_nil, or_false, not_or] at hc
  obtain ⟨h1, h2, h3, h4, h5, h6, h7, h8, h9, h10⟩ := hc
  have b1 : (c == "aac") = false := beq_eq_false_iff_ne.mpr h1
  have b2 : (c == "mp3") = false := beq_eq_false_iff_ne.mpr h2
  have b3 : (c == "ac3") = false := beq_eq_false_iff_ne.mpr h3
  have b4 : (c == "eac3") = false := beq_eq_false_iff_ne.mpr h4
  have b5 : (c == "dts") = false := beq_eq_false_iff_ne.mpr h5
  have b6 : (c == "opus") = false := beq_eq_false_iff_ne.mpr h6
  have b7 : (c == "vorbis") = false := beq_eq_false_iff_ne.mpr h7
  have b8 : (c == "flac") = false := beq_eq_false_iff_ne.mpr h8
  have b9 : (c == "pcm_s16le") = false := beq_eq_false_iff_ne.mpr h9
  have b10 : (c == "truehd") = false := beq_eq_false_iff_ne.mpr h10
  simp [pick_copy_extension, copy_ext_mapping, List.lookup,
        b1, b2, b3, b4, b5, b6, b7, b8, b9, b10]

/-- Witness for C7 at a codec outside the table. -/
theorem claim_C7_codec_extension_total_witness :
    pick_copy_extension "h264" = ".m4a" :=
  claim_C7_codec_extension_total.2.1 "h264" (by decide)

/-- C3: `process_one` is total over its fallible steps: whatever the
path-resolution, command-building and tool-run oracles do, it returns a
`TaskResult` carrying the source path, and any raised exception becomes a
failed result carrying the exception's text — nothing propagates. -/
theorem claim_C3_process_one_never_raises (src : String)
    (resolve_out : Except String String)
    (build_cmd : String → Except String (List String))
    (run_tool : List String → Except String (Int × String × String)) :
    (process_one src resolve_out build_cmd run_tool).src = src
    ∧ (∀ e, resolve_out = Except.error e →
        process_one src resolve_out build_cmd run_tool = TaskResult.mk src false e)
    ∧ (∀ d e, resolve_out = Except.ok d → build_cmd d = Except.error e →
        process_one src resolve_out build_cmd run_tool = TaskResult.mk src false e)
    ∧ (∀ d c e, resolve_out = Except.ok d → build_cmd d = Except.ok c →
        run_tool c = Except.error e →
        process_one src resolve_out build_cmd run_tool = TaskResult.mk src false e) := by
  refine ⟨?_, ?_, ?_, ?_⟩
  · rcases hro : resolve_out with e | d
    · simp [process_one, hro]
    · rcases hb : build_cmd d with e | c
      · simp [process_one, hro, hb]
      · rcases hr : run_tool c with e | r
        · simp [process_one, hro, hb, hr]
        · by_cases h0 : r.1 = 0 <;> simp [process_one, hro, hb, hr, h0]
  · intro e he
    simp [process_one, he]
  · intro d e hd he
    simp [process_one, hd, he]
  · intro d c e hd hc he
    simp [process_one, hd, hc, he]

/-- Witness for C3: a raised exception in path resolution becomes a failed
result with the exception text. -/
theorem claim_C3_process_one_never_raises_witness :
    process_one "a.mp4" (Except.error "boom")
        (fun _ => Except.ok []) (fun _ => Except.ok (0, "", ""))
      = TaskResult.mk "a.mp4" false "boom" :=
  (claim_C3_process_one_never_raises "a.mp4" (Except.error "boom")
      (fun _ => Except.ok []) (fun _ => Except.ok (0, "", ""))).2.1 "boom" rfl

/-- Equation for `stemChars` when the name has no dot. -/
theorem stemChars_eq_none (s : List Char) (hd : lastDotIdx s = none) :
    stemChars s = s := by
  unfold stemChars
  rw [hd]

/-- Equation for `stemChars` when the last dot sits at index `i`. -/
theorem stemChars_eq_some (s : List Char) (i : Nat) (hd : lastDotIdx s = some i) :
    stemChars s = if 0 < i ∧ i + 1 < s.length then s.take i else s := by
  unfold stemChars
  rw [hd]

/-- Equation for `suffixChars` when the name has no dot. -/
theorem suffixChars_eq_none (s : List Char) (hd : lastDotIdx s = none) :
    suffixChars s = [] := by
  unfold suffixChars
  rw [hd]

/-- Equation for `suffixChars` when the last dot sits at index `i`. -/
theorem suffixChars_eq_some (s : List Char) (i : Nat) (hd : lastDotIdx s = some i) :
    suffixChars s = if 0 < i ∧ i + 1 < s.length then s.drop i else [] := by
  unfold suffixChars
  rw [hd]

/-- A name with an empty `pathlib` suffix is its own stem. -/
theorem pyStem_of_suffix_empty (s : String) (h : pySuffix s = "") : pyStem s = s := by
  unfold pySuffix at h
  unfold pyStem
  cases hd : lastDotIdx s.data with
  | none => rw [stemChars_eq_none s.data hd]
  | some i =>
    rw [suffixChars_eq_some s.data i hd] at h
    rw [stemChars_eq_some s.data i hd]
    by_cases hc : 0 < i ∧ i + 1 < s.data.length
    · exfalso
      rw [if_pos hc] at h
      have hnil : s.data.drop i = [] := congrArg String.data h
      have := List.drop_eq_nil_iff.mp hnil
      omega
    · rw [if_neg hc]

/-- A name with a nonempty `pathlib` suffix strictly shrinks under `stem`. -/
theorem pyStem_ne_self_of_suffix (t : String) (h : pySuffix t ≠ "") : pyStem t ≠ t := by
  unfold pySuffix at h
  unfold pyStem
  cases hd : lastDotIdx t.data with
  | none => exact absurd (by rw [suffixChars_eq_none t.data hd]) h
  | some i =>
    rw [suffixChars_eq_some t.data i hd] at h
    by_cases hc : 0 < i ∧ i + 1 < t.data.length
    · rw [stemChars_eq_some t.data i hd, if_pos hc]
      intro he
      have hdata : t.data.take i = t.data := congrArg String.data he
      have hlen : (t.data.take i).length = t.data.length := by rw [hdata]
      rw [List.length_take, Nat.min_eq_left (by omega)] at hlen
      omega
    · rw [if_neg hc] at h
      exact absurd rfl h

/-- `with_suffix("")` on a name is exactly its stem. -/
theorem withSuffixName_empty (name : String) : withSuffixName name "" = pyStem name := by
  unfold withSuffixName
  by_cases h : pySuffix name = ""
  · rw [if_pos h, pyStem_of_suffix_empty name h]
    simp
  · rw [if_neg h]
    simp

/-- `with_suffix` on a name whose suffix is nonempty replaces everything
from the last dot on. -/
theorem withSuffixName_of_suffix_ne (name ext : String) (h : pySuffix name ≠ "") :
    withSuffixName name ext = pyStem name ++ ext := by
  unfold withSuffixName
  rw [if_neg h]

/-- `with_suffix` on a path rewrites only the final component. -/
theorem with_suffix_path_concat (a : List String) (x ext : String) :
    with_suffix_path (a ++ [x]) ext = a ++ [withSuffixName x ext] := by
  unfold with_suffix_path
  simp

/-- Dropping fewer than all elements preserves the last element. -/
theorem getLast?_drop_of_lt {α : Type} (l : List α) (n : Nat) (h : n < l.length) :
    (l.drop n).getLast? = l.getLast? := by
  induction l generalizing n with
  | nil => simp at h
  | cons a t ih =>
    cases n with
    | zero => simp
    | succ m =>
      simp only [List.drop_succ_cons]
      rw [ih m (by simpa using h)]
      cases t with
      | nil => simp at h
      | cons b u => simp

/-- Closed form of `make_out_path` for a source strictly below the input
root: the preserve-tree variant keeps the relative directories, the flat
variant keeps none, and both end in the source's stem re-suffixed. -/
theorem make_out_path_eq (src input_root output_root : List String)
    (mode : String) (codec : Option String)
    (hlt : input_root.length < src.length) :
    make_out_path src input_root output_root true mode codec
      = output_root ++ (src.drop input_root.length).dropLast
          ++ [withSuffixName (pyStem (src.getLast?.getD "")) (out_ext mode codec)]
    ∧ make_out_path src input_root output_root false mode codec
      = output_root ++ [withSuffixName (pyStem (src.getLast?.getD "")) (out_ext mode codec)] := by
  have hrel_ne : src.drop input_root.length ≠ [] := by
    intro he
    have := List.drop_eq_nil_iff.mp he
    omega
  rcases List.eq_nil_or_concat (src.drop input_root.length) with he | ⟨a, x, hax⟩
  · exact absurd he hrel_ne
  · rw [List.concat_eq_append] at hax
    have hlast : src.getLast?.getD "" = x := by
      rw [← getLast?_drop_of_lt src input_root.length hlt, hax]
      simp
    constructor
    · have h1 : make_out_path src input_root output_root true mode codec
          = with_suffix_path
              (output_root ++ with_suffix_path (src.drop input_root.length) "")
              (out_ext mode codec) := by
        simp [make_out_path]
      rw [h1, hax, with_suffix_path_concat, withSuffixName_empty, List.dropLast_concat,
          hlast, ← List.append_assoc, with_suffix_path_concat]
    · have h2 : make_out_path src input_root output_root false mode codec
          = with_suffix_path (output_root ++ [pyStem (src.getLast?.getD "")])
              (out_ext mode codec) := by
        simp [make_out_path]
      rw [h2, hlast, with_suffix_path_concat]

/-- C8: for a source file strictly below the input root, the resolved
output path mirrors the source's relative path (directories included) under
the output root when `preserve_tree` is true, and keeps only the source's
filename stem (all directories flattened) under the output root when it is
false. -/
theorem claim_C8_preserve_tree_layout (src input_root output_root : List String)
    (mode : String) (codec : Option String)
    (_hpre : input_root <+: src) (hlt : input_root.length < src.length) :
    make_out_path src input_root output_root true mode codec
      = output_root ++ (src.drop input_root.length).dropLast
          ++ [withSuffixName (pyStem (src.getLast?.getD "")) (out_ext mode codec)]
    ∧ make_out_path src input_root output_root false mode codec
      = output_root ++ [withSuffixName (pyStem (src.getLast?.getD "")) (out_ext mode codec)] :=
  make_out_path_eq src input_root output_root mode codec hlt

/-- Witness for C8 on `root/sub/a.mp4` → `out/sub/a.mp3` (preserve) and
`out/a.mp3` (flatten). -/
theorem claim_C8_preserve_tree_layout_witness :
    make_out_path ["root", "sub", "a.mp4"] ["root"] ["out"] true "MP3" none
      = ["out", "sub", "a.mp3"]
    ∧ make_out_path ["root", "sub", "a.mp4"] ["root"] ["out"] false "MP3" none
      = ["out", "a.mp3"] := by
  have h := claim_C8_preserve_tree_layout ["root", "sub", "a.mp4"] ["root"] ["out"]
    "MP3" none (by decide) (by decide)
  exact ⟨h.1.trans (by decide), h.2.trans (by decide)⟩

/-- C9: when the source filename's stem itself still has a dot-suffix (as in
`a.b.mp4`, stem `a.b`), `make_out_path` replaces everything after the stem's
last dot with the target extension, in both the preserve-tree and the
flattening case — the output name is built from the stem of the stem, which
is strictly shorter than the stem. -/
theorem claim_C9_double_suffix_lost (src input_root output_root : List String)
    (mode : String) (codec : Option String) (pt : Bool)
    (_hpre : input_root <+: src) (hlt : input_root.length < src.length)
    (hdot : pySuffix (pyStem (src.getLast?.getD "")) ≠ "") :
    (make_out_path src input_root output_root pt mode codec).getLast?
      = some (pyStem (pyStem (src.getLast?.getD "")) ++ out_ext mode codec)
    ∧ pyStem (pyStem (src.getLast?.getD "")) ≠ pyStem (src.getLast?.getD "") := by
  have heq := make_out_path_eq src input_root output_root mode codec hlt
  have hw : withSuffixName (pyStem (src.getLast?.getD "")) (out_ext mode codec)
      = pyStem (pyStem (src.getLast?.getD "")) ++ out_ext mode codec :=
    withSuffixName_of_suffix_ne _ _ hdot
  refine ⟨?_, pyStem_ne_self_of_suffix _ hdot⟩
  cases pt
  · rw [heq.2, hw]
    simp
  · rw [heq.1, hw]
    simp

/-- Witness for C9 on `root/a.b.mp4` → output name `a.mp3`, not `a.b.mp3`. -/
theorem claim_C9_double_suffix_lost_witness :
    (make_out_path ["root", "a.b.mp4"] ["root"] ["out"] true "MP3" none).getLast?
      = some (pyStem (pyStem "a.b.mp4") ++ out_ext "MP3" none)
    ∧ pyStem (pyStem "a.b.mp4") ≠ pyStem "a.b.mp4" := by
  have h := claim_C9_double_suffix_lost ["root", "a.b.mp4"] ["root"] ["out"]
    "MP3" none true (by decide) (by decide) (by decide)
  exact ⟨h.1, h.2⟩

/-- When the stop flag is never observed set, the result loop folds its
counter update over every completed result and logs each one. -/
theorem dispatcher_loop_no_cancel (rs : List TaskResult) (st : RunState) :
    dispatcher_loop (rs.map fun r => (false, r)) st = (rs.foldl step_counters st, rs) := by
  induction rs generalizing st with
  | nil => rfl
  | cons r t ih => simp [dispatcher_loop, ih]

/-- Folding the counter update adds the list's length to `done` and
distributes it over `ok_count + fail_count`. -/
theorem foldl_step_counters (rs : List TaskResult) (st : RunState) :
    (rs.foldl step_counters st).done = st.done + rs.length
    ∧ (rs.foldl step_counters st).ok_count + (rs.foldl step_counters st).fail_count
        = st.ok_count + st.fail_count + rs.length := by
  induction rs generalizing st with
  | nil => simp
  | cons r t ih =>
    simp only [List.foldl_cons, List.length_cons]
    obtain ⟨h1, h2⟩ := ih (step_counters st r)
    refine ⟨by rw [h1]; simp [step_counters]; omega, ?_⟩
    rw [h2]
    simp [step_counters]
    cases hr : r.success <;> simp <;> omega

/-- The loop invariant `done = ok_count + fail_count` is preserved whatever
the flag observations are, and the loop processes at most its input. -/
theorem dispatcher_loop_invariant (completed : List (Bool × TaskResult)) (st : RunState)
    (h : st.done = st.ok_count + st.fail_count) :
    (dispatcher_loop completed st).1.done
      = (dispatcher_loop completed st).1.ok_count
        + (dispatcher_loop completed st).1.fail_count
    ∧ (dispatcher_loop completed st).1.done ≤ st.done + completed.length := by
  induction completed generalizing st with
  | nil => simpa [dispatcher_loop] using h
  | cons p t ih =>
    obtain ⟨b, r⟩ := p
    by_cases hb : b
    · simp [dispatcher_loop, hb, h]
    · have hst : (step_counters st r).done
          = (step_counters st r).ok_count + (step_counters st r).fail_count := by
        simp [step_counters, h]
        cases hr : r.success <;> simp <;> omega
      obtain ⟨h1, h2⟩ := ih (step_counters st r) hst
      simp only [dispatcher_loop, hb, if_false, Bool.false_eq_true]
      refine ⟨h1, le_trans h2 ?_⟩
      simp [step_counters, List.length_cons]
      omega

/-- C1: for a batch over `files` whose tasks run with the stop flag never
set, processing the completed results (in any completion order) emits
exactly one task result per input file — the emitted sources are a
permutation of the files — and the final counters satisfy
`ok_count + fail_count = number of files`. -/
theorem claim_C1_all_results_emitted (files : List String)
    (outcomes : List (Bool × String)) (completion : List TaskResult)
    (hlen : outcomes.length = files.length)
    (hperm : completion.Perm (submitted_results files outcomes)) :
    (run_batch (completion.map fun r => (false, r))).2.length = files.length
    ∧ ((run_batch (completion.map fun r => (false, r))).2.map TaskResult.src).Perm files
    ∧ (run_batch (completion.map fun r => (false, r))).1.ok_count
        + (run_batch (completion.map fun r => (false, r))).1.fail_count
        = files.length := by
  have hrun : run_batch (completion.map fun r => (false, r))
      = (completion.foldl step_counters (RunState.mk 0 0 0), completion) :=
    dispatcher_loop_no_cancel completion (RunState.mk 0 0 0)
  have hsub_src : (submitted_results files outcomes).map TaskResult.src = files := by
    unfold submitted_results task
    rw [List.map_map]
    have : ((fun r => r.src) ∘ fun p : String × (Bool × String) =>
        if false = true then TaskResult.mk p.1 false "Dibatalkan."
        else TaskResult.mk p.1 p.2.1 p.2.2) = Prod.fst := by
      funext p
      simp
    rw [this]
    exact List.map_fst_zip files outcomes (le_of_eq hlen.symm)
  have hsub_len : (submitted_results files outcomes).length = files.length := by
    have := congrArg List.length hsub_src
    simpa using this
  have hclen : completion.length = files.length := hperm.length_eq.trans hsub_len
  refine ⟨by rw [hrun]; exact hclen, ?_, ?_⟩
  · rw [hrun]
    exact hsub_src ▸ hperm.map TaskResult.src
  · rw [hrun]
    have := (foldl_step_counters completion (RunState.mk 0 0 0)).2
    simpa [hclen] using this

/-- Witness for C1: two files, completion observed in reverse order. -/
theorem claim_C1_all_results_emitted_witness :
    (run_batch (([TaskResult.mk "b.mp4" false "err", TaskResult.mk "a.mp4" true "out/a.m4a"]).map
        fun r => (false, r))).2.length = (["a.mp4", "b.mp4"] : List String).length
    ∧ ((run_batch (([TaskResult.mk "b.mp4" false "err",
          TaskResult.mk "a.mp4" true "out/a.m4a"]).map
        fun r => (false, r))).2.map TaskResult.src).Perm ["a.mp4", "b.mp4"]
    ∧ (run_batch (([TaskResult.mk "b.mp4" false "err",
          TaskResult.mk "a.mp4" true "out/a.m4a"]).map
        fun r => (false, r))).1.ok_count
        + (run_batch (([TaskResult.mk "b.mp4" false "err",
            TaskResult.mk "a.mp4" true "out/a.m4a"]).map
          fun r => (false, r))).1.fail_count
        = (["a.mp4", "b.mp4"] : List String).length :=
  claim_C1_all_results_emitted ["a.mp4", "b.mp4"] [(true, "out/a.m4a"), (false, "err")]
    [TaskResult.mk "b.mp4" false "err", TaskResult.mk "a.mp4" true "out/a.m4a"]
    (by decide) (by decide)

/-- C10: throughout a batch over at most `total` submitted files, after each
processed result the counters satisfy `done = ok_count + fail_count` with
`done` at most `total`; and each processed result bumps `done` by one and
exactly one of `ok_count`/`fail_count` by one. -/
theorem claim_C10_counter_invariant (total : Nat)
    (completed : List (Bool × TaskResult))
    (hlen : completed.length ≤ total) :
    (run_batch completed).1.done
      = (run_batch completed).1.ok_count + (run_batch completed).1.fail_count
    ∧ (run_batch completed).1.done ≤ total
    ∧ (∀ st r, (step_counters st r).done = st.done + 1
        ∧ (r.success = true → (step_counters st r).ok_count = st.ok_count + 1
            ∧ (step_counters st r).fail_count = st.fail_count)
        ∧ (r.success = false → (step_counters st r).fail_count = st.fail_count + 1
            ∧ (step_counters st r).ok_count = st.ok_count)) := by
  have h := dispatcher_loop_invariant completed (RunState.mk 0 0 0) rfl
  refine ⟨h.1, le_trans h.2 (by simpa using hlen), ?_⟩
  intro st r
  refine ⟨rfl, fun hs => ?_, fun hs => ?_⟩
  · simp [step_counters, hs]
  · simp [step_counters, hs]

/-- Witness for C10: a two-result run (one processed, then the flag seen
set) out of three submitted files. -/
theorem claim_C10_counter_invariant_witness :
    (run_batch [(false, TaskResult.mk "a.mp4" true "out"),
                (true, TaskResult.mk "b.mp4" false "err")]).1.done
      = (run_batch [(false, TaskResult.mk "a.mp4" true "out"),
                    (true, TaskResult.mk "b.mp4" false "err")]).1.ok_count
        + (run_batch [(false, TaskResult.mk "a.mp4" true "out"),
                      (true, TaskResult.mk "b.mp4" false "err")]).1.fail_count
    ∧ (run_batch [(false, TaskResult.mk "a.mp4" true "out"),
                  (true, TaskResult.mk "b.mp4" false "err")]).1.done ≤ 3
    ∧ (step_counters (RunState.mk 0 0 0) (TaskResult.mk "a.mp4" true "out")).done = 0 + 1 := by
  have h := claim_C10_counter_invariant 3
    [(false, TaskResult.mk "a.mp4" true "out"), (true, TaskResult.mk "b.mp4" false "err")]
    (by decide)
  exact ⟨h.1, h.2.1, (h.2.2 (RunState.mk 0 0 0) (TaskResult.mk "a.mp4" true "out")).1⟩

/-- C2 counterexample: a task that starts with the stop flag already set
reports the literal message `"Dibatalkan."`, not `"Cancelled"` as the claim
states. -/
theorem claim_C2_counterexample_message :
    (task true "a.mp4" (TaskResult.mk "a.mp4" true "out/a.m4a")).msg = "Dibatalkan."
    ∧ (task true "a.mp4" (TaskResult.mk "a.mp4" true "out/a.m4a")).msg ≠ "Cancelled" := by
  constructor
  · rfl
  · decide

/-- C2 (amended): a task that starts after the stop flag is set reports a
failed result for its file with message `"Dibatalkan."` (the cancellation
message) and performs no external tool invocation; and because the flag,
once set during the batch, is still set at batch end, the final summary
reports the run as cancelled. -/
theorem claim_C2_cancelled_task_and_summary (f : String) (proc : TaskResult)
    (proc_invocations : Nat) (set_at : Option Nat) (t_set t_end : Nat) (st : RunState)
    (hset : event_is_set set_at t_set = true) (hle : t_set ≤ t_end) :
    task true f proc = TaskResult.mk f false "Dibatalkan."
    ∧ task_invocations true proc_invocations = 0
    ∧ event_is_set set_at t_end = true
    ∧ (final_summary (event_is_set set_at t_end) st).cancelled = true := by
  have hmono : event_is_set set_at t_end = true := by
    cases set_at with
    | none => simp [event_is_set] at hset
    | some s =>
      simp [event_is_set] at hset ⊢
      omega
  exact ⟨rfl, rfl, hmono, by simp [final_summary, hmono]⟩

/-- Witness for C2 (amended): flag set at time 2, batch ends at time 5. -/
theorem claim_C2_cancelled_task_and_summary_witness :
    task true "a.mp4" (TaskResult.mk "a.mp4" true "out/a.m4a")
      = TaskResult.mk "a.mp4" false "Dibatalkan."
    ∧ task_invocations true 1 = 0
    ∧ event_is_set (some 2) 5 = true
    ∧ (final_summary (event_is_set (some 2) 5) (RunState.mk 3 1 2)).cancelled = true :=
  claim_C2_cancelled_task_and_summary "a.mp4" (TaskResult.mk "a.mp4" true "out/a.m4a")
    1 (some 2) 2 5 (RunState.mk 3 1 2) (by decide) (by decide)
